import Mathlib

/-!
# NimRL: state and action primitives, action parsing, epsilon-greedy policy

A shallow embedding of the parts of the NimRL sources that the specification
makes promises about:

* `src/nim_rl/state/state.h` : `State::OutOfRange`, `State::CheckRange`,
  `State::Size`, `State::operator[]`, `std::hash<State>`;
* `src/state.h`              : the earlier `State::CheckRange(size_type, msg)`;
* `src/action.cpp`           : `Action::Action(std::istream &)`, `Action::Valid`,
  `Action::operator=`, `operator>>`, `operator<<`, `operator==`, `operator!=`;
* `src/nim_rl/agent.h`       : `EpsilonGreedyPolicy`, the default `Agent::Update`,
  `DPAgent::PolicyImpl`, `MonteCarloAgent::PolicyImpl`, the constructor of
  `OffPolicyMonteCarloAgent`, `DoubleLearningAgent::SetValues`.

Machine model (LP64): `int` and `unsigned` are 32 bits wide, `std::size_t` is
64 bits wide.  Integers are mathematical integers; every implicit conversion
the C++ performs in a mixed comparison is written out as a reduction modulo
`2^32` or `2^64`.  Code that can throw returns `Except Error _`.
-/

namespace NimRL

/-! ## Machine integers -/

/-- Implicit conversion of an `int` operand to `std::size_t` (modulo `2^64`). -/
def toSizeT (x : Int) : Nat := (x % (2 : Int) ^ 64).toNat

/-- Implicit conversion of an `int` operand to `unsigned` (modulo `2^32`). -/
def toUnsigned (x : Int) : Nat := (x % (2 : Int) ^ 32).toNat

/-- Subtraction of two `std::size_t` values: wraps modulo `2^64`. -/
def subSizeT (a b : Nat) : Nat := (a % 2 ^ 64 + 2 ^ 64 - b % 2 ^ 64) % 2 ^ 64

/-- Largest value of `int`. -/
def INT_MAX : Int := 2 ^ 31 - 1

/-- Smallest value of `int`. -/
def INT_MIN : Int := -(2 ^ 31)

/-- The values an `int` object can hold. -/
def IsInt (x : Int) : Prop := INT_MIN ≤ x ∧ x ≤ INT_MAX

instance (x : Int) : Decidable (IsInt x) := by
  unfold IsInt; exact inferInstance

/-- The exceptions the modelled code can raise. -/
inductive Error where
  | out_of_range (msg : String)
deriving DecidableEq, Repr

/-! ## State (`src/nim_rl/state/state.h`) -/

/-- A `nim_rl::State`: its only data member is `std::vector<unsigned> data_`. -/
structure State where
  data_ : List Nat
deriving DecidableEq, Repr

/-- Default message of `State::CheckRange` (state.h line 72). -/
def kRangeMsg : String := "Pile_id is out of range."

namespace State

/-- Translation of `State::Size` (state.h line 63): `return data_.size();`. -/
def Size (s : State) : Nat := s.data_.length

/-- Translation of `State::OutOfRange` (state.h lines 59-61):
`return pile_id >= data_.size() || pile_id < 0;`.  In the first comparison the
`int` operand is converted to `std::size_t`. -/
def OutOfRange (s : State) (pile_id : Int) : Bool :=
  decide (toSizeT pile_id ≥ s.data_.length) || decide (pile_id < 0)

/-- Translation of `State::CheckRange` (state.h lines 82-84):
`if (OutOfRange(pile_id)) throw std::out_of_range(msg);`. -/
def CheckRange (s : State) (pile_id : Int) (msg : String) : Except Error Unit :=
  if s.OutOfRange pile_id then Except.error (Error.out_of_range msg) else Except.ok ()

/-- Modelled from the spec: the body of `const unsigned &State::operator[](int) const`
(declared at state.h line 67, defined in a file that is not among the sources).
The spec (section 7) says that indexing a pile outside the valid range raises an
out-of-range error; the private `CheckRange` with its default message is the
range check of the class.  In range the element of `data_` is returned. -/
def subscript (s : State) (pile_id : Int) : Except Error Nat := do
  s.CheckRange pile_id kRangeMsg
  pure (s.data_.getD pile_id.toNat 0)

end State

/-! ## The earlier State (`src/state.h`) -/

namespace Legacy

/-- Translation of `State::CheckRange(size_type pile_id, const std::string &msg)`
(src/state.h lines 66-70): `if (pile_id >= state_.size()) throw std::out_of_range(msg);`.
The index arrives as a `size_type`. -/
def CheckRange (state_ : List Nat) (pile_id : Nat) (msg : String) : Except Error Unit :=
  if pile_id ≥ state_.length then Except.error (Error.out_of_range msg) else Except.ok ()

end Legacy

/-! ## Action (`src/action.cpp`) -/

/-- An `Action`: the two `int` data members `pile_id_` and `num_objects_`
that `action.cpp` reads and writes. -/
structure Action where
  pile_id_ : Int
  num_objects_ : Int
deriving DecidableEq, Repr

namespace Action

/-- Translation of `Action::Valid` (action.cpp lines 29-32):
`return pile_id_ >= 0 && pile_id_ <= state.Size() - 1 && num_objects_ >= 1
     && num_objects_ <= state[pile_id_];`
with the short-circuit order of `&&`.  `state.Size() - 1` is computed in
`std::size_t`; `pile_id_` is converted to `std::size_t` and `num_objects_` to
`unsigned` for the mixed comparisons.  Only the last operand indexes the state. -/
def Valid (a : Action) (state : State) : Except Error Bool :=
  if a.pile_id_ ≥ 0 then
    if toSizeT a.pile_id_ ≤ subSizeT state.Size 1 then
      if a.num_objects_ ≥ 1 then do
        let pile ← state.subscript a.pile_id_
        pure (decide (toUnsigned a.num_objects_ ≤ pile))
      else pure false
    else pure false
  else pure false

/-- Translation of `operator==(const Action &, const Action &)` (action.cpp lines 51-53). -/
def operatorEq (lhs rhs : Action) : Bool :=
  decide (lhs.pile_id_ = rhs.pile_id_) && decide (lhs.num_objects_ = rhs.num_objects_)

/-- Translation of `operator!=(const Action &, const Action &)` (action.cpp lines 55-57):
`return !(lhs == rhs);`. -/
def operatorNe (lhs rhs : Action) : Bool := !(operatorEq lhs rhs)

end Action

/-! ## Hashing of states (`src/nim_rl/state/state.h`, lines 96-107) -/

/-- Effect of `std::sort(state_sorted.begin(), state_sorted.end())` on a vector of
`unsigned`: the ascending rearrangement of its elements. -/
def stdSort (v : List Nat) : List Nat := v.insertionSort (fun a b => a ≤ b)

/-- One iteration of the loop of `std::hash<State>::operator()`:
`seed ^= std::hash<unsigned>()(x) + 0x9e3779b9 + (seed << 6u) + (seed >> 2u);`
in 64-bit unsigned arithmetic.  `hashUnsigned` stands for `std::hash<unsigned>`,
which the standard leaves to the implementation. -/
def hashCombine (hashUnsigned : Nat → Nat) (seed x : Nat) : Nat :=
  Nat.xor seed
    ((hashUnsigned x + 0x9e3779b9 + (seed <<< 6) % 2 ^ 64 + (seed >>> 2)) % 2 ^ 64)

/-- Translation of `std::hash<State>::operator()`: copy `data_`, sort the copy,
then fold the sorted piles into the seed, starting from `seed = 0`.  The loop
`for (int pile_id = 0; pile_id != state_sorted.size(); ++pile_id)` visits the
elements of the sorted vector once each, in order (the `int` counter reaches
every index of a vector of fewer than `2^31` piles). -/
def State.hash (hashUnsigned : Nat → Nat) (state : State) : Nat :=
  (stdSort state.data_).foldl (hashCombine hashUnsigned) 0

/-! ## Epsilon-greedy policy (`src/nim_rl/agent.h`, lines 91-123) -/

/-- The function `std::max(a, b)`, which is `(a < b) ? b : a`. -/
def stdMax {α : Type} [LT α] [DecidableRel (fun a b : α => a < b)] (a b : α) : α :=
  if a < b then b else a

/-- The three `double` data members of `EpsilonGreedyPolicy`.  The number type
is a parameter: the code only compares and multiplies these values. -/
structure EpsilonGreedyPolicy (α : Type) where
  epsilon_ : α
  epsilon_decay_factor_ : α
  min_epsilon_ : α
deriving DecidableEq, Repr

namespace EpsilonGreedyPolicy

variable {α : Type}

/-- Translation of `GetEpsilon` (agent.h line 100). -/
def GetEpsilon (p : EpsilonGreedyPolicy α) : α := p.epsilon_

/-- Translation of `SetEpsilon` (agent.h line 102): `epsilon_ = epsilon;`. -/
def SetEpsilon (p : EpsilonGreedyPolicy α) (epsilon : α) : EpsilonGreedyPolicy α :=
  { p with epsilon_ := epsilon }

/-- Translation of `UpdateEpsilon` (agent.h lines 106-108):
`epsilon_ = std::max(min_epsilon_, epsilon_ * epsilon_decay_factor_);`. -/
def UpdateEpsilon [LT α] [DecidableRel (fun a b : α => a < b)] [Mul α]
    (p : EpsilonGreedyPolicy α) : EpsilonGreedyPolicy α :=
  { p with epsilon_ := stdMax p.min_epsilon_ (p.epsilon_ * p.epsilon_decay_factor_) }

/-- Translation of `EpsilonGreedy` (agent.h lines 114-118):
`return (dist_epsilon_(rng_) < epsilon_) ? SampleAction(legal_actions)
                                         : SampleAction(greedy_actions);`.
The argument `u` is the value drawn by `dist_epsilon_(rng_)`; `SampleAction`
(declared at agent.h line 54, defined outside the sources) is a parameter. -/
def EpsilonGreedy [LT α] [DecidableRel (fun a b : α => a < b)]
    (p : EpsilonGreedyPolicy α) (u : α) (SampleAction : List Action → Action)
    (legal_actions greedy_actions : List Action) : Action :=
  if u < p.epsilon_ then SampleAction legal_actions else SampleAction greedy_actions

end EpsilonGreedyPolicy

/-! ## Input streams

The part of `std::istream` that `Action::Action(std::istream &)` uses, following
the C++ standard: the sentry of an input function, `std::getline`, and the
formatted extraction `operator>>(int &)` (`num_get` with the default decimal
base in the classic locale).  A stream is its unread characters and its state
bits; with the default exception mask no stream operation throws. -/

/-- A `std::istream`: the characters not yet extracted and the state bits. -/
structure IStream where
  buf : List Char
  eofbit : Bool
  failbit : Bool
  badbit : Bool
deriving DecidableEq, Repr

namespace IStream

/-- The member `good()`: no state bit is set. -/
def good (is : IStream) : Bool := !is.eofbit && !is.failbit && !is.badbit

/-- The member `fail()`: `failbit` or `badbit` is set.  `!is` is `is.fail()` and
the conversion to `bool` is `!is.fail()`. -/
def fail (is : IStream) : Bool := is.failbit || is.badbit

/-- The member `eof()`: `eofbit` is set. -/
def eof (is : IStream) : Bool := is.eofbit

/-- A freshly opened stream over the given characters, such as
`std::istringstream state_stream(line)`. -/
def ofChars (cs : List Char) : IStream := ⟨cs, false, false, false⟩

end IStream

/-- The function `isspace` in the classic locale: space, `\t`, `\n`, `\v`, `\f`, `\r`. -/
def isspace (c : Char) : Bool := c.toNat == 32 || (9 ≤ c.toNat && c.toNat ≤ 13)

/-- The function `isdigit`: the characters `0` to `9`. -/
def isdigit (c : Char) : Bool := 48 ≤ c.toNat && c.toNat ≤ 57

/-- Value of a decimal digit character. -/
def digitValue (c : Char) : Nat := c.toNat - 48

/-- Character extraction of `std::getline`: the characters before the first
newline, the characters after it (the newline is extracted and dropped), and
whether the end of input was reached instead of a newline. -/
def getlineChars : List Char → List Char × List Char × Bool
  | [] => ([], [], true)
  | c :: cs =>
    if c = '\n' then ([], cs, false)
    else ((c :: (getlineChars cs).1), (getlineChars cs).2.1, (getlineChars cs).2.2)

/-- The call `std::getline(is, line)` on an empty `line`.  If the stream is not
good the sentry sets `failbit` and nothing is read.  Otherwise characters are
extracted up to and including the first newline; reaching the end of input
sets `eofbit`, and extracting no character at all sets `failbit`. -/
def getline (is : IStream) : IStream × List Char :=
  if is.good then
    ({ is with buf := (getlineChars is.buf).2.1,
               eofbit := (getlineChars is.buf).2.2,
               failbit := is.buf.isEmpty },
     (getlineChars is.buf).1)
  else ({ is with failbit := true }, [])

/-- The conversion done by `num_get` for an `int`, on input that starts with the
non-whitespace character `c` followed by `cs`: an optional sign, then the
longest run of decimal digits.  Reaching the end of input sets `eofbit`.
Without a digit the conversion fails and stores 0; a value outside the range of
`int` fails and stores the nearest bound; otherwise the value is stored. -/
def numGetInt (is : IStream) (c : Char) (cs : List Char) : IStream × Int :=
  let body := if c = '-' ∨ c = '+' then cs else c :: cs
  let digits := body.takeWhile isdigit
  let rest := body.dropWhile isdigit
  let magnitude : Nat := digits.foldl (fun acc d => 10 * acc + digitValue d) 0
  let v : Int := if c = '-' then -(magnitude : Int) else (magnitude : Int)
  if digits.isEmpty then
    ({ is with buf := rest, eofbit := rest.isEmpty, failbit := true }, 0)
  else if v > INT_MAX then
    ({ is with buf := rest, eofbit := rest.isEmpty, failbit := true }, INT_MAX)
  else if v < INT_MIN then
    ({ is with buf := rest, eofbit := rest.isEmpty, failbit := true }, INT_MIN)
  else ({ is with buf := rest, eofbit := rest.isEmpty }, v)

/-- The extraction `is >> val` for an `int` object holding `val`.  Sentry: a
stream that is not good gets `failbit` and `val` is left alone; otherwise
leading whitespace is skipped, and reaching the end of input while skipping
sets `eofbit` and `failbit` and leaves `val` alone.  Then `num_get` converts. -/
def extractInt (is : IStream) (val : Int) : IStream × Int :=
  if is.good then
    match is.buf.dropWhile isspace with
    | [] => ({ is with buf := [], eofbit := true, failbit := true }, val)
    | c :: cs => numGetInt is c cs
  else ({ is with failbit := true }, val)

/-! ## Parsing an action (`src/action.cpp`, lines 8-21) -/

/-- What `Action::Action(std::istream &)` leaves behind: the constructed action,
the stream, and the lines written to `std::cerr`. -/
structure Parsed where
  action : Action
  is : IStream
  cerr : List String
deriving DecidableEq, Repr

/-- Translation of `Action::Action(std::istream &is)` (action.cpp lines 8-21).
`init` holds the values of `pile_id_` and `num_objects_` when the body starts
(the default member initialisers are in a header that is not among the
sources, so they are a parameter).
```
std::string line;
if (getline(is, line)) {
  std::istringstream state_stream(line);
  state_stream >> pile_id_ >> num_objects_;
  if (!state_stream.eof()) {
    is.setstate(is.rdstate() | std::istream::failbit);
    pile_id_ = num_objects_ = -1;
  }
}
if (!is) std::cerr << "Error: Invalid input." << std::endl;
``` -/
def Action.fromStream (init : Action) (is : IStream) : Parsed :=
  let is1 := (getline is).1
  let line := (getline is).2
  let r : Action × IStream :=
    if is1.fail then (init, is1)
    else
      let e1 := extractInt (IStream.ofChars line) init.pile_id_
      let e2 := extractInt e1.1 init.num_objects_
      if e2.1.eof then (⟨e1.2, e2.2⟩, is1)
      else (⟨-1, -1⟩, { is1 with failbit := true })
  ⟨r.1, r.2, if r.2.fail then ["Error: Invalid input."] else []⟩

/-! ## Decimal text of an integer -/

/-- Character of a decimal digit. -/
def digitChar (d : Nat) : Char := Char.ofNat (48 + d)

/-- Decimal text of a natural number: its base-10 digits, most significant
first, and `0` for zero. -/
def natDecimal (m : Nat) : List Char :=
  if m = 0 then ['0'] else (Nat.digits 10 m).reverse.map digitChar

/-- Decimal text of an integer: a minus sign for a negative value, then the
decimal text of its magnitude. -/
def decimalText (x : Int) : List Char :=
  if x < 0 then '-' :: natDecimal x.natAbs else natDecimal x.natAbs

/-! ## Assignment, extraction and rendering of actions (`src/action.cpp`, lines 23-49) -/

namespace Action

/-- The same `&&` chain as `Action::Valid`, with the indexing `state[pile_id_]`
passed as a parameter: whatever the indexing does, it runs only where the
chain reaches its last operand. -/
def ValidWith (index : State → Int → Except Error Nat) (a : Action) (state : State) :
    Except Error Bool :=
  if a.pile_id_ ≥ 0 then
    if toSizeT a.pile_id_ ≤ subSizeT state.Size 1 then
      if a.num_objects_ ≥ 1 then do
        let pile ← index state a.pile_id_
        pure (decide (toUnsigned a.num_objects_ ≤ pile))
      else pure false
    else pure false
  else pure false

/-- Translation of `Action::operator=(Action &&rhs)` (action.cpp lines 23-27):
`pile_id_ = rhs.pile_id_; num_objects_ = rhs.num_objects_; return *this;`. -/
def moveAssign (self rhs : Action) : Action :=
  { self with pile_id_ := rhs.pile_id_, num_objects_ := rhs.num_objects_ }

/-- Translation of `operator>>(std::istream &is, Action &action)` (action.cpp
lines 34-40): `Action tmp(is); if (is) { action = std::move(tmp); } return is;`.
`init` holds the initial members of `tmp`; the result carries the destination
after the call, the stream and what was written to `std::cerr`. -/
def operatorShr (init : Action) (is : IStream) (action : Action) : Parsed :=
  if (Action.fromStream init is).is.fail then
    ⟨action, (Action.fromStream init is).is, (Action.fromStream init is).cerr⟩
  else
    ⟨action.moveAssign (Action.fromStream init is).action,
      (Action.fromStream init is).is, (Action.fromStream init is).cerr⟩

end Action

/-- The insertion `os << text` of a string literal into a good output stream,
the stream being the characters written so far. -/
def putString (os : List Char) (text : String) : List Char := os ++ text.toList

/-- The insertion `os << x` of an `int` into a good output stream with the default
format flags (decimal, no sign for non-negative values, no padding). -/
def putInt (os : List Char) (x : Int) : List Char := os ++ decimalText x

/-- Translation of `operator<<(std::ostream &os, const Action &action)`
(action.cpp lines 42-49):
```
os << "From pile " << action.pile_id_ << " remove " << action.num_objects_
   << " object";
if (action.num_objects_ > 1) { os << "s"; }
return os;
``` -/
def Action.operatorShl (os : List Char) (action : Action) : List Char :=
  if action.num_objects_ > 1 then
    putString (putString (putInt (putString (putInt (putString os "From pile ")
      action.pile_id_) " remove ") action.num_objects_) " object") "s"
  else
    putString (putInt (putString (putInt (putString os "From pile ")
      action.pile_id_) " remove ") action.num_objects_) " object"

/-! ## Agents (`src/nim_rl/agent.h`)

Rewards and the other `double` quantities range over a number type `α`.  The
`kDefault*` constants are the exact values of their decimal literals. -/

/-- The constant `kDefaultThreshold = 1e-4` (agent.h line 41). -/
def kDefaultThreshold : ℚ := 1 / 10000

/-- The constant `kDefaultAlpha = 0.5` (agent.h line 42). -/
def kDefaultAlpha : ℚ := 1 / 2

/-- The constant `kDefaultGamma = 1.0` (agent.h line 43). -/
def kDefaultGamma : ℚ := 1

/-- The constant `kDefaultEpsilon = 1.0` (agent.h line 44). -/
def kDefaultEpsilon : ℚ := 1

/-- The constant `kDefaultEpsilonDecayFactor = 0.9` (agent.h line 45). -/
def kDefaultEpsilonDecayFactor : ℚ := 9 / 10

/-- The constant `kDefaultMinEpsilon = 0.01` (agent.h line 46). -/
def kDefaultMinEpsilon : ℚ := 1 / 100

/-- The enumeration `ImportanceSampling` (agent.h lines 49-52). -/
inductive ImportanceSampling where
  | kWeighted
  | kNormal
deriving DecidableEq, Repr

/-- A `std::unordered_map<State, Reward>`, as the list of its entries. -/
abbrev ValueTable (α : Type) : Type := List (State × α)

/-- The data members of `Agent` (agent.h lines 78-79): `current_state_` and
`games_`, a `std::unordered_set<Game *>` kept as the set of the addresses. -/
structure Agent where
  current_state_ : State
  games_ : Finset Nat
deriving DecidableEq

/-- The constructor `Agent() = default`: `current_state_` is `State()`, `games_` is empty. -/
def Agent.construct : Agent := ⟨⟨[]⟩, ∅⟩

/-- Translation of the default `Agent::Update` (agent.h lines 81-82):
`virtual void Update(const State &update_state, const State &current_state,
Reward reward) { current_state_ = current_state; }`. -/
def Agent.Update {α : Type} (agent : Agent) (_update_state current_state : State)
    (_reward : α) : Agent :=
  { agent with current_state_ := current_state }

/-- The data members of `RLAgent` (agent.h lines 187-190) on top of `Agent`. -/
structure RLAgent (α : Type) extends Agent where
  values_ : ValueTable α
  greedy_value_ : α
  legal_actions_ : List Action
  greedy_actions_ : List Action

/-- The constructor `RLAgent() = default`: empty containers, `greedy_value_ = 0.0`. -/
def RLAgent.construct {α : Type} [Zero α] : RLAgent α :=
  { toAgent := Agent.construct, values_ := [], greedy_value_ := 0,
    legal_actions_ := [], greedy_actions_ := [] }

/-- Translation of `DPAgent::PolicyImpl` (agent.h lines 221-224):
`return SampleAction(greedy_actions);`, the first parameter being unnamed. -/
def DPAgent.PolicyImpl (SampleAction : List Action → Action)
    (_legal_actions greedy_actions : List Action) : Action :=
  SampleAction greedy_actions

/-- The data members of `MonteCarloAgent` (agent.h lines 270-272) on top of `RLAgent`. -/
structure MonteCarloAgent (α : Type) extends RLAgent α where
  gamma_ : α
  trajectory_ : List (State × Action × α)
  cumulative_sums_ : ValueTable α

/-- Translation of `MonteCarloAgent::MonteCarloAgent(double gamma)` (agent.h line 258):
`: gamma_(gamma) {}`. -/
def MonteCarloAgent.construct {α : Type} [Zero α] (gamma : α) : MonteCarloAgent α :=
  { toRLAgent := RLAgent.construct, gamma_ := gamma, trajectory_ := [],
    cumulative_sums_ := [] }

/-- Translation of `MonteCarloAgent::PolicyImpl` (agent.h lines 276-279):
`return SampleAction(greedy_actions);`, the first parameter being unnamed.
`ESMonteCarloAgent` does not override it. -/
def MonteCarloAgent.PolicyImpl (SampleAction : List Action → Action)
    (_legal_actions greedy_actions : List Action) : Action :=
  SampleAction greedy_actions

/-- The class `OffPolicyMonteCarloAgent` (agent.h lines 315-341): the bases
`MonteCarloAgent` and `EpsilonGreedyPolicy` and the member `importance_sampling_`. -/
structure OffPolicyMonteCarloAgent (α : Type) extends
    MonteCarloAgent α, EpsilonGreedyPolicy α where
  importance_sampling_ : ImportanceSampling

/-- Translation of the constructor of `OffPolicyMonteCarloAgent` (agent.h lines
318-327) called with all five arguments:
`: MonteCarloAgent(gamma), importance_sampling_(importance_sampling),
   EpsilonGreedyPolicy(epsilon, epsilon_decay_factor, min_epsilon) {}`. -/
def OffPolicyMonteCarloAgent.construct {α : Type} [Zero α] (gamma : α)
    (importance_sampling : ImportanceSampling)
    (epsilon epsilon_decay_factor min_epsilon : α) : OffPolicyMonteCarloAgent α :=
  { toMonteCarloAgent := MonteCarloAgent.construct gamma,
    toEpsilonGreedyPolicy := ⟨epsilon, epsilon_decay_factor, min_epsilon⟩,
    importance_sampling_ := importance_sampling }

/-- The constructor of `OffPolicyMonteCarloAgent` called without arguments: every
parameter takes its default argument (agent.h lines 318-324),
`gamma = kDefaultGamma`, `importance_sampling = ImportanceSampling::kWeighted`,
`epsilon = kDefaultEpsilon`, `epsilon_decay_factor = kDefaultEpsilonDecayFactor`,
`min_epsilon = kDefaultMinEpsilon`. -/
def OffPolicyMonteCarloAgent.constructDefault : OffPolicyMonteCarloAgent ℚ :=
  OffPolicyMonteCarloAgent.construct kDefaultGamma ImportanceSampling.kWeighted
    kDefaultEpsilon kDefaultEpsilonDecayFactor kDefaultMinEpsilon

/-- The class `TDAgent` (agent.h lines 343-370): the bases `RLAgent` and
`EpsilonGreedyPolicy` and the members `alpha_` and `gamma_`. -/
structure TDAgent (α : Type) extends RLAgent α, EpsilonGreedyPolicy α where
  alpha_ : α
  gamma_ : α

/-- The class `DoubleLearningAgent` (agent.h lines 433-470) on top of `TDAgent`:
the second value store `values_2_`, `flag_`, and the state of its private
random source (`dist_flag_`, `rng_`). -/
structure DoubleLearningAgent (α : Type) extends TDAgent α where
  values_2_ : ValueTable α
  flag_ : Bool
  rng_ : Nat

namespace DoubleLearningAgent

/-- Translation of `SetValues(const std::unordered_map<State, Reward> &values)`
(agent.h lines 451-453): `values_ = values_2_ = values;`.  The assignment
groups right to left: `values_2_` is assigned first, then `values_` is
assigned from `values_2_`. -/
def SetValues {α : Type} (agent : DoubleLearningAgent α) (values : ValueTable α) :
    DoubleLearningAgent α :=
  let agent1 : DoubleLearningAgent α := { agent with values_2_ := values }
  { agent1 with values_ := agent1.values_2_ }

/-- Translation of `SetValues(std::unordered_map<State, Reward> &&values)`
(agent.h lines 454-456): `values_ = values_2_ = std::move(values);`.
`values_2_` takes over the contents of the argument, then `values_` is
copy-assigned from `values_2_` (the inner assignment yields `values_2_`). -/
def SetValuesMove {α : Type} (agent : DoubleLearningAgent α) (values : ValueTable α) :
    DoubleLearningAgent α :=
  let agent1 : DoubleLearningAgent α := { agent with values_2_ := values }
  { agent1 with values_ := agent1.values_2_ }

end DoubleLearningAgent

/-! ## Helper lemmas on the conversions -/

theorem toSizeT_of_nonneg {x : Int} (h0 : 0 ≤ x) (h : IsInt x) : toSizeT x = x.toNat := by
  unfold toSizeT
  unfold IsInt INT_MAX at h
  rw [Int.emod_eq_of_lt h0 (by omega)]

theorem toUnsigned_of_nonneg {x : Int} (h0 : 0 ≤ x) (h : IsInt x) : toUnsigned x = x.toNat := by
  unfold toUnsigned
  unfold IsInt INT_MAX at h
  rw [Int.emod_eq_of_lt h0 (by omega)]

theorem subSizeT_one {n : Nat} (h1 : 1 ≤ n) (h : n < 2 ^ 64) : subSizeT n 1 = n - 1 := by
  unfold subSizeT
  rw [Nat.mod_eq_of_lt h]
  omega

/-! ## Range check -/

/-- C5: for every state and every `int` pile index, `State::OutOfRange` is true
exactly when the index is negative or at least the number of piles; the range
check raises `std::out_of_range` in exactly those cases and otherwise returns
normally with no effect.  The earlier `CheckRange` of `src/state.h`, whose
index is a `size_type`, raises exactly when the index is at least the number of
piles. -/
theorem State.checkRange_raises_iff (s : State) (pile_id : Int) (msg : String)
    (h : IsInt pile_id) :
    (s.OutOfRange pile_id = true ↔ (pile_id < 0 ∨ (s.Size : Int) ≤ pile_id)) ∧
    (s.CheckRange pile_id msg = Except.error (Error.out_of_range msg)
        ↔ (pile_id < 0 ∨ (s.Size : Int) ≤ pile_id)) ∧
    (¬ (pile_id < 0 ∨ (s.Size : Int) ≤ pile_id) → s.CheckRange pile_id msg = Except.ok ()) ∧
    (∀ i : Nat, Legacy.CheckRange s.data_ i msg = Except.error (Error.out_of_range msg)
        ↔ s.Size ≤ i) := by
  have key : s.OutOfRange pile_id = true ↔ (pile_id < 0 ∨ (s.Size : Int) ≤ pile_id) := by
    unfold State.OutOfRange State.Size
    rcases lt_or_le pile_id 0 with hneg | hpos
    · simp [hneg]
    · rw [toSizeT_of_nonneg hpos h]
      simp only [ge_iff_le, Bool.or_eq_true, decide_eq_true_eq]
      omega
  refine ⟨key, ?_, ?_, ?_⟩
  · unfold State.CheckRange
    by_cases hb : s.OutOfRange pile_id = true
    · simp [hb, key.mp hb]
    · have hn : ¬ (pile_id < 0 ∨ (s.Size : Int) ≤ pile_id) := fun hc => hb (key.mpr hc)
      simp [hb, hn]
  · intro hn
    unfold State.CheckRange
    have hb : ¬ s.OutOfRange pile_id = true := fun hc => hn (key.mp hc)
    simp [hb]
  · intro i
    unfold Legacy.CheckRange State.Size
    by_cases hi : i ≥ s.data_.length
    · simp [hi]
    · simp [hi]

/-- C5 witness: on the three-pile state used by `main`, index 3 is out of range. -/
theorem State.checkRange_raises_iff_witness :
    IsInt 3 ∧
    State.CheckRange ⟨[10, 10, 10]⟩ 3 kRangeMsg = Except.error (Error.out_of_range kRangeMsg) ∧
    State.CheckRange ⟨[10, 10, 10]⟩ 2 kRangeMsg = Except.ok () :=
  ⟨by decide,
   (State.checkRange_raises_iff ⟨[10, 10, 10]⟩ 3 kRangeMsg (by decide)).2.1.mpr
     (Or.inr (by decide)),
   (State.checkRange_raises_iff ⟨[10, 10, 10]⟩ 2 kRangeMsg (by decide)).2.2.1 (by decide)⟩

/-! ## Action legality -/

theorem State.subscript_of_inRange (s : State) (p : Int) (hp : IsInt p) (h0 : 0 ≤ p)
    (hlt : p < (s.Size : Int)) : s.subscript p = Except.ok (s.data_.getD p.toNat 0) := by
  have hb : s.OutOfRange p = false := by
    unfold State.OutOfRange
    rw [toSizeT_of_nonneg h0 hp]
    unfold State.Size at hlt
    simp only [ge_iff_le, Bool.or_eq_false_iff, decide_eq_false_iff_not, not_le, not_lt]
    omega
  simp [State.subscript, State.CheckRange, hb, bind, Except.bind, pure, Except.pure]

/-- C1: for every state with at least one pile and every action `(p, n)`,
`Action::Valid` returns (does not raise), and the value returned is true if and
only if `0 <= p < number of piles`, `n >= 1` and `n <=` the current size of pile `p`. -/
theorem Action.valid_iff_legal (a : Action) (s : State)
    (hp : IsInt a.pile_id_) (hn : IsInt a.num_objects_)
    (hs : 1 ≤ s.Size) (hsz : s.Size < 2 ^ 64) :
    ∃ b : Bool, a.Valid s = Except.ok b ∧
      (b = true ↔ (0 ≤ a.pile_id_ ∧ a.pile_id_ < (s.Size : Int) ∧ 1 ≤ a.num_objects_ ∧
        a.num_objects_ ≤ ((s.data_.getD a.pile_id_.toNat 0 : Nat) : Int))) := by
  unfold Action.Valid
  by_cases h0 : a.pile_id_ ≥ 0
  · rw [if_pos h0, toSizeT_of_nonneg h0 hp, subSizeT_one hs hsz]
    by_cases h1 : a.pile_id_.toNat ≤ s.Size - 1
    · rw [if_pos h1]
      have hlt : a.pile_id_ < (s.Size : Int) := by omega
      by_cases h2 : a.num_objects_ ≥ 1
      · rw [if_pos h2, State.subscript_of_inRange s a.pile_id_ hp h0 hlt,
          toUnsigned_of_nonneg (by omega) hn]
        refine ⟨_, rfl, ?_⟩
        simp only [decide_eq_true_eq]
        omega
      · rw [if_neg h2]
        exact ⟨false, rfl, by simp; omega⟩
    · rw [if_neg h1]
      exact ⟨false, rfl, by simp; omega⟩
  · rw [if_neg h0]
    exact ⟨false, rfl, by simp; omega⟩

/-- C1 witness: on the state `{10, 10, 10}` of `main`, removing 4 objects from pile 2. -/
theorem Action.valid_iff_legal_witness :
    IsInt 2 ∧ IsInt 4 ∧ 1 ≤ State.Size ⟨[10, 10, 10]⟩ ∧
    ∃ b : Bool, Action.Valid ⟨2, 4⟩ ⟨[10, 10, 10]⟩ = Except.ok b ∧
      (b = true ↔ ((0 : Int) ≤ 2 ∧ (2 : Int) < (State.Size ⟨[10, 10, 10]⟩ : Int) ∧ (1 : Int) ≤ 4 ∧
        (4 : Int) ≤ ((([10, 10, 10] : List Nat).getD (2 : Int).toNat 0 : Nat) : Int))) :=
  ⟨by decide, by decide, by decide,
   Action.valid_iff_legal ⟨2, 4⟩ ⟨[10, 10, 10]⟩ (by decide) (by decide) (by decide)
     (by decide)⟩

/-- C2 (the code at the failing input): on the state with no piles, for the action
`(0, 1)`, `state.Size() - 1` wraps to `2^64 - 1`, both range comparisons pass, the
state is indexed and `Action::Valid` raises `std::out_of_range` instead of
returning a boolean. -/
theorem Action.valid_raises_on_empty_state :
    Action.Valid ⟨0, 1⟩ ⟨[]⟩ = Except.error (Error.out_of_range kRangeMsg) ∧
    subSizeT (State.Size ⟨[]⟩) 1 = 2 ^ 64 - 1 ∧
    State.OutOfRange ⟨[]⟩ 0 = true := by
  refine ⟨?_, by decide, by decide⟩
  rfl

/-! ## Action equality -/

/-- C10: action equality is structural.  `a == b` holds if and only if both
actions have the same pile index and the same count (equivalently, they are
the same value), and `a != b` is exactly the negation of `a == b`. -/
theorem Action.operatorEq_structural (a b : Action) :
    (Action.operatorEq a b = true ↔ (a.pile_id_ = b.pile_id_ ∧ a.num_objects_ = b.num_objects_)) ∧
    (Action.operatorEq a b = true ↔ a = b) ∧
    (Action.operatorNe a b = !(Action.operatorEq a b)) ∧
    (Action.operatorNe a b = true ↔ ¬ (a.pile_id_ = b.pile_id_ ∧ a.num_objects_ = b.num_objects_)) := by
  have h1 : Action.operatorEq a b = true ↔
      (a.pile_id_ = b.pile_id_ ∧ a.num_objects_ = b.num_objects_) := by
    simp [Action.operatorEq]
  refine ⟨h1, ?_, rfl, ?_⟩
  · rw [h1]
    cases a; cases b
    simp
  · unfold Action.operatorNe
    rw [← h1]
    cases Action.operatorEq a b <;> simp

/-! ## Hashing -/

theorem stdSort_eq_of_perm {v w : List Nat} (h : v.Perm w) : stdSort v = stdSort w := by
  unfold stdSort
  apply List.eq_of_perm_of_sorted (r := fun a b : Nat => a ≤ b)
  · exact ((List.perm_insertionSort _ v).trans h).trans (List.perm_insertionSort _ w).symm
  · exact List.sorted_insertionSort _ v
  · exact List.sorted_insertionSort _ w

/-- C6: hashing is defined over the multiset of pile sizes.  For every hash of
`unsigned` and every two states whose pile sequences are permutations of each
other, `std::hash<State>` returns the same value. -/
theorem State.hash_eq_of_perm (hashUnsigned : Nat → Nat) (s t : State)
    (h : s.data_.Perm t.data_) : State.hash hashUnsigned s = State.hash hashUnsigned t := by
  unfold State.hash
  rw [stdSort_eq_of_perm h]

/-- C6 witness: the piles `{3, 4, 5}` and `{5, 3, 4}` hash alike. -/
theorem State.hash_eq_of_perm_witness :
    List.Perm [3, 4, 5] [5, 3, 4] ∧
    State.hash id ⟨[3, 4, 5]⟩ = State.hash id ⟨[5, 3, 4]⟩ :=
  ⟨by decide, State.hash_eq_of_perm id ⟨[3, 4, 5]⟩ ⟨[5, 3, 4]⟩ (by decide)⟩

/-! ## Epsilon-greedy policy -/

theorem stdMax_eq_max {α : Type} [LinearOrder α] (a b : α) : stdMax a b = max a b := by
  unfold stdMax
  by_cases h : a < b
  · rw [if_pos h, max_eq_right h.le]
  · rw [if_neg h, max_eq_left (not_lt.mp h)]

/-- C7: after an update cycle the exploration rate is never below the floor.
For every exploration rate, decay factor and floor (of any linearly ordered
number type with a multiplication), `UpdateEpsilon` sets the rate to
`max(floor, rate * decay factor)`, which is at least the floor, and leaves the
decay factor and the floor as they were. -/
theorem EpsilonGreedyPolicy.updateEpsilon_ge_floor {α : Type} [LinearOrder α] [Mul α]
    (p : EpsilonGreedyPolicy α) :
    p.UpdateEpsilon.epsilon_ = max p.min_epsilon_ (p.epsilon_ * p.epsilon_decay_factor_) ∧
    p.min_epsilon_ ≤ p.UpdateEpsilon.epsilon_ ∧
    p.UpdateEpsilon.min_epsilon_ = p.min_epsilon_ ∧
    p.UpdateEpsilon.epsilon_decay_factor_ = p.epsilon_decay_factor_ := by
  have h : p.UpdateEpsilon.epsilon_
      = max p.min_epsilon_ (p.epsilon_ * p.epsilon_decay_factor_) := by
    unfold EpsilonGreedyPolicy.UpdateEpsilon
    exact stdMax_eq_max _ _
  refine ⟨h, ?_, rfl, rfl⟩
  rw [h]
  exact le_max_left _ _

/-- C8: with exploration rate 0 (for instance after `SetEpsilon(0.0)`), for every
draw `u >= 0`, every sampler and all legal and greedy action sets,
`EpsilonGreedy` returns the sample taken from the greedy actions; the legal
action set has no influence on the result. -/
theorem EpsilonGreedyPolicy.epsilonGreedy_rate_zero {α : Type} [LinearOrder α] [Zero α]
    (p : EpsilonGreedyPolicy α) (u : α) (SampleAction : List Action → Action)
    (legal_actions greedy_actions : List Action)
    (he : p.epsilon_ = 0) (hu : 0 ≤ u) :
    p.EpsilonGreedy u SampleAction legal_actions greedy_actions = SampleAction greedy_actions ∧
    (p.SetEpsilon 0).EpsilonGreedy u SampleAction legal_actions greedy_actions
      = SampleAction greedy_actions ∧
    (∀ other_legal : List Action,
      p.EpsilonGreedy u SampleAction other_legal greedy_actions
        = p.EpsilonGreedy u SampleAction legal_actions greedy_actions) := by
  have key : ∀ l : List Action,
      p.EpsilonGreedy u SampleAction l greedy_actions = SampleAction greedy_actions := by
    intro l
    unfold EpsilonGreedyPolicy.EpsilonGreedy
    rw [he, if_neg (not_lt.mpr hu)]
  refine ⟨key _, ?_, fun l => (key l).trans (key _).symm⟩
  unfold EpsilonGreedyPolicy.EpsilonGreedy EpsilonGreedyPolicy.SetEpsilon
  exact if_neg (not_lt.mpr hu)

/-- C8 witness: rate 0, draw 1/2, a sampler that takes the first action. -/
theorem EpsilonGreedyPolicy.epsilonGreedy_rate_zero_witness :
    (0 : ℚ) ≤ 1 / 2 ∧
    EpsilonGreedyPolicy.EpsilonGreedy (⟨0, 9 / 10, 1 / 100⟩ : EpsilonGreedyPolicy ℚ) (1 / 2)
        (fun l => l.headD ⟨-1, -1⟩) [⟨0, 1⟩, ⟨0, 2⟩, ⟨1, 1⟩] [⟨1, 1⟩]
      = ⟨1, 1⟩ :=
  ⟨by norm_num,
   (EpsilonGreedyPolicy.epsilonGreedy_rate_zero (⟨0, 9 / 10, 1 / 100⟩ : EpsilonGreedyPolicy ℚ)
      (1 / 2) (fun l => l.headD ⟨-1, -1⟩) [⟨0, 1⟩, ⟨0, 2⟩, ⟨1, 1⟩] [⟨1, 1⟩] rfl
      (by norm_num)).1⟩

/-- C9: with exploration rate 1, for every draw `u < 1`, every sampler and all
legal and greedy action sets, `EpsilonGreedy` returns the sample taken from the
legal actions; the greedy action set has no influence on the result. -/
theorem EpsilonGreedyPolicy.epsilonGreedy_rate_one {α : Type} [LinearOrder α] [One α]
    (p : EpsilonGreedyPolicy α) (u : α) (SampleAction : List Action → Action)
    (legal_actions greedy_actions : List Action)
    (he : p.epsilon_ = 1) (hu : u < 1) :
    p.EpsilonGreedy u SampleAction legal_actions greedy_actions = SampleAction legal_actions ∧
    (∀ other_greedy : List Action,
      p.EpsilonGreedy u SampleAction legal_actions other_greedy
        = p.EpsilonGreedy u SampleAction legal_actions greedy_actions) := by
  have key : ∀ g : List Action,
      p.EpsilonGreedy u SampleAction legal_actions g = SampleAction legal_actions := by
    intro g
    unfold EpsilonGreedyPolicy.EpsilonGreedy
    rw [he, if_pos hu]
  exact ⟨key _, fun g => (key g).trans (key _).symm⟩

/-- C9 witness: rate 1, draw 1/2, a sampler that takes the first action. -/
theorem EpsilonGreedyPolicy.epsilonGreedy_rate_one_witness :
    (1 / 2 : ℚ) < 1 ∧
    EpsilonGreedyPolicy.EpsilonGreedy (⟨1, 9 / 10, 1 / 100⟩ : EpsilonGreedyPolicy ℚ) (1 / 2)
        (fun l => l.headD ⟨-1, -1⟩) [⟨0, 1⟩, ⟨0, 2⟩, ⟨1, 1⟩] [⟨1, 1⟩]
      = ⟨0, 1⟩ :=
  ⟨by norm_num,
   (EpsilonGreedyPolicy.epsilonGreedy_rate_one (⟨1, 9 / 10, 1 / 100⟩ : EpsilonGreedyPolicy ℚ)
      (1 / 2) (fun l => l.headD ⟨-1, -1⟩) [⟨0, 1⟩, ⟨0, 2⟩, ⟨1, 1⟩] [⟨1, 1⟩] rfl
      (by norm_num)).1⟩

/-! ## Parsing an action -/

theorem digitChar_props (d : Nat) (h : d < 10) :
    isdigit (digitChar d) = true ∧ digitValue (digitChar d) = d ∧
    isspace (digitChar d) = false ∧ digitChar d ≠ '-' ∧ digitChar d ≠ '+' ∧
    digitChar d ≠ '\n' := by
  interval_cases d <;> decide

theorem mem_natDecimal {m : Nat} {c : Char} (h : c ∈ natDecimal m) :
    ∃ d, d < 10 ∧ c = digitChar d := by
  unfold natDecimal at h
  split at h
  · refine ⟨0, by norm_num, ?_⟩
    simpa using h
  · simp only [List.mem_map, List.mem_reverse] at h
    obtain ⟨d, hd, rfl⟩ := h
    exact ⟨d, Nat.digits_lt_base (by norm_num) hd, rfl⟩

theorem natDecimal_ne_nil (m : Nat) : natDecimal m ≠ [] := by
  unfold natDecimal
  split
  · simp
  · rename_i h
    simpa using Nat.digits_ne_nil_iff_ne_zero.mpr h

theorem foldr_digits_eq_ofDigits (L : List Nat) (h : ∀ d ∈ L, d < 10) :
    L.foldr (fun d acc => 10 * acc + digitValue (digitChar d)) 0 = Nat.ofDigits 10 L := by
  induction L with
  | nil => rfl
  | cons d tl ih =>
    have hd := (digitChar_props d (h d (List.mem_cons_self _ _))).2.1
    rw [List.foldr_cons, ih (fun x hx => h x (List.mem_cons_of_mem _ hx)), hd,
      Nat.ofDigits_cons]
    show 10 * Nat.ofDigits 10 tl + d = d + 10 * Nat.ofDigits 10 tl
    omega

theorem natDecimal_value (m : Nat) :
    (natDecimal m).foldl (fun acc d => 10 * acc + digitValue d) 0 = m := by
  unfold natDecimal
  split
  · rename_i h
    subst h
    decide
  · rw [List.foldl_map, List.foldl_reverse,
      foldr_digits_eq_ofDigits _ (fun d hd => Nat.digits_lt_base (by norm_num) hd),
      Nat.ofDigits_digits]

theorem isdigit_of_mem_natDecimal {m : Nat} {c : Char} (hc : c ∈ natDecimal m) :
    isdigit c = true := by
  obtain ⟨d, hd, rfl⟩ := mem_natDecimal hc
  exact (digitChar_props d hd).1

theorem takeWhile_natDecimal (m : Nat) (rest : List Char)
    (hrest : ∀ c cs, rest = c :: cs → isdigit c = false) :
    (natDecimal m ++ rest).takeWhile isdigit = natDecimal m ∧
    (natDecimal m ++ rest).dropWhile isdigit = rest := by
  have hall : ∀ c ∈ natDecimal m, isdigit c = true := fun c hc => isdigit_of_mem_natDecimal hc
  rw [List.takeWhile_append_of_pos hall, List.dropWhile_append_of_pos hall]
  cases rest with
  | nil => simp
  | cons c cs =>
    have hc := hrest c cs rfl
    simp [hc]

/-- The first character of the decimal text of an integer is a minus sign or a digit. -/
theorem decimalText_head (x : Int) :
    ∃ c cs, decimalText x = c :: cs ∧ isspace c = false ∧ c ≠ '\n' := by
  unfold decimalText
  split
  · exact ⟨'-', _, rfl, by decide, by decide⟩
  · cases hk : natDecimal x.natAbs with
    | nil => exact absurd hk (natDecimal_ne_nil _)
    | cons c cs =>
      have hc : c ∈ natDecimal x.natAbs := by rw [hk]; exact List.mem_cons_self _ _
      obtain ⟨d, hd, rfl⟩ := mem_natDecimal hc
      exact ⟨_, _, rfl, (digitChar_props d hd).2.2.1, (digitChar_props d hd).2.2.2.2.2⟩

theorem decimalText_no_newline (x : Int) : ∀ c ∈ decimalText x, c ≠ '\n' := by
  intro c hc
  have hnat : ∀ c ∈ natDecimal x.natAbs, c ≠ '\n' := by
    intro c hc
    obtain ⟨d, hd, rfl⟩ := mem_natDecimal hc
    exact (digitChar_props d hd).2.2.2.2.2
  unfold decimalText at hc
  split at hc
  · rcases List.mem_cons.mp hc with h | h
    · rw [h]; decide
    · exact hnat c h
  · exact hnat c hc

theorem numGetInt_decimalText (is : IStream) (x : Int) (hx : IsInt x) (rest : List Char)
    (hrest : ∀ c cs, rest = c :: cs → isdigit c = false) (c : Char) (cs : List Char)
    (h : decimalText x ++ rest = c :: cs) :
    numGetInt is c cs = ({ is with buf := rest, eofbit := rest.isEmpty }, x) := by
  have htd := takeWhile_natDecimal x.natAbs rest hrest
  have hval := natDecimal_value x.natAbs
  have hne : (natDecimal x.natAbs).isEmpty = false := by
    cases hk : natDecimal x.natAbs with
    | nil => exact absurd hk (natDecimal_ne_nil _)
    | cons _ _ => rfl
  unfold IsInt INT_MIN INT_MAX at hx
  unfold decimalText at h
  by_cases hneg : x < 0
  · rw [if_pos hneg, List.cons_append] at h
    injection h with h1 h2
    subst h1
    subst h2
    unfold numGetInt
    simp only [true_or, if_true, htd.1, htd.2, hval, hne]
    have e : -((x.natAbs : Nat) : Int) = x := by omega
    simp only [e, INT_MAX, INT_MIN]
    rw [if_neg (by simp), if_neg (by omega), if_neg (by omega)]
  · rw [if_neg hneg] at h
    have hc : c ∈ natDecimal x.natAbs := by
      cases hk : natDecimal x.natAbs with
      | nil => exact absurd hk (natDecimal_ne_nil _)
      | cons c' cs' =>
        rw [hk, List.cons_append] at h
        injection h with h1 h2
        rw [← h1]
        exact List.mem_cons_self _ _
    obtain ⟨d, hd, hcd⟩ := mem_natDecimal hc
    have hm : c ≠ '-' := by rw [hcd]; exact (digitChar_props d hd).2.2.2.1
    have hp : c ≠ '+' := by rw [hcd]; exact (digitChar_props d hd).2.2.2.2.1
    unfold numGetInt
    simp only [hm, hp, or_self, if_false, ← h, htd.1, htd.2, hval, hne]
    have e : ((x.natAbs : Nat) : Int) = x := by omega
    simp only [e, INT_MAX, INT_MIN]
    rw [if_neg (by simp), if_neg (by omega), if_neg (by omega)]

/-- Extraction of an `int` from a good stream that holds optional whitespace,
the decimal text of a representable integer, and then no further digit: the
integer is stored, the text is consumed, `eofbit` is set exactly when the text
ended the input, and `failbit` stays clear. -/
theorem extractInt_decimalText (ws rest : List Char) (x val : Int) (hx : IsInt x)
    (hws : ∀ c ∈ ws, isspace c = true)
    (hrest : ∀ c cs, rest = c :: cs → isdigit c = false) :
    extractInt (IStream.ofChars (ws ++ (decimalText x ++ rest))) val
      = (⟨rest, rest.isEmpty, false, false⟩, x) := by
  obtain ⟨c, cs, hcs, hsp, _⟩ := decimalText_head x
  have hdrop : (ws ++ (decimalText x ++ rest)).dropWhile isspace = c :: (cs ++ rest) := by
    rw [List.dropWhile_append_of_pos hws, hcs, List.cons_append,
      List.dropWhile_cons_of_neg (by simp [hsp])]
  have hnum := numGetInt_decimalText (IStream.ofChars (ws ++ (decimalText x ++ rest))) x hx rest
    hrest c (cs ++ rest) (by rw [hcs, List.cons_append])
  unfold extractInt
  rw [if_pos (by rfl)]
  simp only [IStream.ofChars] at hnum ⊢
  rw [hdrop]
  exact hnum

theorem getlineChars_line (l tail : List Char) (h : ∀ c ∈ l, c ≠ '\n') :
    getlineChars (l ++ '\n' :: tail) = (l, tail, false) ∧ getlineChars l = (l, [], true) := by
  induction l with
  | nil => simp [getlineChars]
  | cons c cs ih =>
    have hc : c ≠ '\n' := h c (List.mem_cons_self _ _)
    have ih2 := ih (fun x hx => h x (List.mem_cons_of_mem _ hx))
    simp [getlineChars, hc, ih2.1, ih2.2]

theorem isdigit_eq_false_of_isspace {c : Char} (h : isspace c = true) : isdigit c = false := by
  unfold isspace at h
  unfold isdigit
  simp only [Bool.or_eq_true, beq_iff_eq, Bool.and_eq_true, decide_eq_true_eq] at h
  simp only [Bool.and_eq_false_iff, decide_eq_false_iff_not]
  omega

/-- The two extractions of the constructor on a line made of the decimal text of
`p`, whitespace and the decimal text of `n`: both succeed, the values are `p`
and `n`, and the line stream ends with `eofbit` set. -/
theorem extract_two_integers (p n a b : Int) (ws : List Char)
    (hp : IsInt p) (hn : IsInt n) (hne : ws ≠ [])
    (hws : ∀ c ∈ ws, isspace c = true) :
    (extractInt (IStream.ofChars (decimalText p ++ ws ++ decimalText n)) a).2 = p ∧
    extractInt (extractInt (IStream.ofChars (decimalText p ++ ws ++ decimalText n)) a).1 b
      = (⟨[], true, false, false⟩, n) := by
  have hrest : ∀ c cs, ws ++ decimalText n = c :: cs → isdigit c = false := by
    intro c cs hcs
    cases ws with
    | nil => exact absurd rfl hne
    | cons w ws2 =>
      rw [List.cons_append] at hcs
      injection hcs with h1 _
      rw [← h1]
      exact isdigit_eq_false_of_isspace (hws w (List.mem_cons_self _ _))
  have hempty : (ws ++ decimalText n).isEmpty = false := by
    cases ws with
    | nil => exact absurd rfl hne
    | cons _ _ => rfl
  have e1 := extractInt_decimalText [] (ws ++ decimalText n) p a hp (by simp) hrest
  rw [List.nil_append, ← List.append_assoc, hempty] at e1
  have e2 := extractInt_decimalText ws [] n b hn hws (by simp)
  rw [List.append_nil] at e2
  rw [e1]
  exact ⟨rfl, e2⟩

theorem getline_line (l tail : List Char) (h : ∀ c ∈ l, c ≠ '\n') :
    getline (IStream.ofChars (l ++ '\n' :: tail)) = (⟨tail, false, false, false⟩, l) ∧
    getline (IStream.ofChars l) = (⟨[], true, l.isEmpty, false⟩, l) := by
  have hg := getlineChars_line l tail h
  have hne : (l ++ '\n' :: tail).isEmpty = false := by
    cases l <;> rfl
  unfold getline
  simp only [IStream.ofChars, IStream.good, hg.1, hg.2, hne]
  exact ⟨rfl, rfl⟩

/-- The constructor on a line that was read without failure and whose two
extractions end with `eofbit` set on the line stream: the extracted values
are kept and the stream is left as `getline` left it. -/
theorem Action.fromStream_of_line (init : Action) (is is1 e : IStream) (line : List Char)
    (p n : Int) (hg : getline is = (is1, line)) (hf : is1.fail = false)
    (h1 : (extractInt (IStream.ofChars line) init.pile_id_).2 = p)
    (h2 : extractInt (extractInt (IStream.ofChars line) init.pile_id_).1 init.num_objects_
      = (e, n))
    (he : e.eof = true) :
    Action.fromStream init is = ⟨⟨p, n⟩, is1, []⟩ := by
  unfold Action.fromStream
  simp only [hg, hf, h1, h2, he, if_true, Bool.false_eq_true, if_false]

/-- C4: for every pair of integers `p` and `n` representable as `int`, every
non-empty run `ws` of whitespace other than newline and every initial value of
the data members, constructing an `Action` from a good stream whose next line
is the decimal text of `p`, `ws`, the decimal text of `n` and nothing else
yields the action `(p, n)` and leaves the stream not failed.  This holds when
the line is ended by a newline (the rest of the input stays unread) and when it
is ended by the end of the input (only `eofbit` is set). -/
theorem Action.fromStream_two_integers (init : Action) (p n : Int) (ws tail : List Char)
    (hp : IsInt p) (hn : IsInt n) (hne : ws ≠ [])
    (hws : ∀ c ∈ ws, isspace c = true ∧ c ≠ '\n') :
    Action.fromStream init
        (IStream.ofChars (decimalText p ++ ws ++ decimalText n ++ '\n' :: tail))
      = ⟨⟨p, n⟩, ⟨tail, false, false, false⟩, []⟩ ∧
    Action.fromStream init (IStream.ofChars (decimalText p ++ ws ++ decimalText n))
      = ⟨⟨p, n⟩, ⟨[], true, false, false⟩, []⟩ := by
  have hline : ∀ c ∈ decimalText p ++ ws ++ decimalText n, c ≠ '\n' := by
    intro c hc
    rcases List.mem_append.mp hc with h | h
    · rcases List.mem_append.mp h with h | h
      · exact decimalText_no_newline p c h
      · exact (hws c h).2
    · exact decimalText_no_newline n c h
  have hg := getline_line (decimalText p ++ ws ++ decimalText n) tail hline
  have hx := extract_two_integers p n init.pile_id_ init.num_objects_ ws hp hn hne
    (fun c hc => (hws c hc).1)
  have hne2 : (decimalText p ++ ws ++ decimalText n).isEmpty = false := by
    obtain ⟨c, cs, hcs, _, _⟩ := decimalText_head p
    rw [hcs]
    rfl
  rw [hne2] at hg
  exact ⟨Action.fromStream_of_line init _ _ _ _ p n hg.1 rfl hx.1 hx.2 rfl,
    Action.fromStream_of_line init _ _ _ _ p n hg.2 rfl hx.1 hx.2 rfl⟩

/-- C4 witness: the line `3 12` followed by a newline and further input. -/
theorem Action.fromStream_two_integers_witness :
    IsInt 3 ∧ IsInt 12 ∧
    Action.fromStream ⟨-1, -1⟩ (IStream.ofChars ['3', ' ', '1', '2', '\n', 'x'])
      = ⟨⟨3, 12⟩, ⟨['x'], false, false, false⟩, []⟩ := by
  refine ⟨by decide, by decide, ?_⟩
  have h := (Action.fromStream_two_integers ⟨-1, -1⟩ 3 12 [' '] ['x'] (by decide) (by decide)
    (by simp) (by decide)).1
  have d3 : decimalText 3 = ['3'] := by
    simp [decimalText, natDecimal, digitChar]
  have d12 : decimalText 12 = ['1', '2'] := by
    simp [decimalText, natDecimal, digitChar]
  rw [d3, d12] at h
  exact h

/-- C3 (the code at failing inputs): an empty line, a blank line, a line with a
single integer and a line with a lone sign are all accepted.  The line stream
reaches its end, so `eof()` is true, the constructor does not set `failbit`, and
the action keeps whatever the extractions left in it instead of `(-1, -1)`.
Lines with non-numeric text or with extra tokens do take the sentinel path. -/
theorem Action.fromStream_accepts_short_lines :
    Action.fromStream ⟨7, 8⟩ (IStream.ofChars ['\n'])
      = ⟨⟨7, 8⟩, ⟨[], false, false, false⟩, []⟩ ∧
    Action.fromStream ⟨7, 8⟩ (IStream.ofChars [' ', ' ', '\n'])
      = ⟨⟨7, 8⟩, ⟨[], false, false, false⟩, []⟩ ∧
    Action.fromStream ⟨7, 8⟩ (IStream.ofChars ['5', '\n'])
      = ⟨⟨5, 8⟩, ⟨[], false, false, false⟩, []⟩ ∧
    Action.fromStream ⟨7, 8⟩ (IStream.ofChars ['-', '\n'])
      = ⟨⟨0, 8⟩, ⟨[], false, false, false⟩, []⟩ ∧
    Action.fromStream ⟨7, 8⟩ (IStream.ofChars ['a', 'b', '\n'])
      = ⟨⟨-1, -1⟩, ⟨[], false, true, false⟩, ["Error: Invalid input."]⟩ ∧
    Action.fromStream ⟨7, 8⟩ (IStream.ofChars ['1', ' ', '2', ' ', '3', '\n'])
      = ⟨⟨-1, -1⟩, ⟨[], false, true, false⟩, ["Error: Invalid input."]⟩ := by
  refine ⟨?_, ?_, ?_, ?_, ?_, ?_⟩ <;> decide

/-- Extraction from a stream that is not good: `failbit` is set and the object
keeps its value. -/
theorem extractInt_of_not_good (is : IStream) (val : Int) (h : is.good = false) :
    extractInt is val = ({ is with failbit := true }, val) := by
  unfold extractInt
  rw [if_neg (by simp [h])]

/-- Extraction from a good stream that holds only whitespace: `eofbit` and
`failbit` are set and the object keeps its value. -/
theorem extractInt_of_blank (ws : List Char) (val : Int) (hws : ∀ c ∈ ws, isspace c = true) :
    extractInt (IStream.ofChars ws) val = (⟨[], true, true, false⟩, val) := by
  have hdrop : ws.dropWhile isspace = [] := by
    rw [← List.append_nil ws, List.dropWhile_append_of_pos hws]
    rfl
  unfold extractInt
  rw [if_pos (by rfl)]
  simp only [IStream.ofChars, hdrop]

/-- Lines with fewer than two integers are accepted (see C3).  For every initial
value of the data members, every run `ws` of whitespace other than newline and
every representable integer `p`: on a blank line the constructor leaves the
stream good and the action at its initial members; on a line that holds only
the decimal text of `p` it leaves the stream good and the action at
`(p, initial num_objects_)`.  No diagnostic is written in either case. -/
theorem Action.fromStream_short_line (init : Action) (p : Int) (ws tail : List Char)
    (hp : IsInt p) (hws : ∀ c ∈ ws, isspace c = true ∧ c ≠ '\n') :
    Action.fromStream init (IStream.ofChars (ws ++ '\n' :: tail))
      = ⟨init, ⟨tail, false, false, false⟩, []⟩ ∧
    Action.fromStream init (IStream.ofChars (ws ++ decimalText p ++ '\n' :: tail))
      = ⟨⟨p, init.num_objects_⟩, ⟨tail, false, false, false⟩, []⟩ := by
  have hsp : ∀ c ∈ ws, isspace c = true := fun c hc => (hws c hc).1
  constructor
  · have hg := (getline_line ws tail (fun c hc => (hws c hc).2)).1
    have e1 := extractInt_of_blank ws init.pile_id_ hsp
    have h := Action.fromStream_of_line init _ _ ⟨[], true, true, false⟩ _
      init.pile_id_ init.num_objects_ hg rfl (by rw [e1])
      (by rw [e1]; exact extractInt_of_not_good _ _ rfl) rfl
    exact h
  · have hline : ∀ c ∈ ws ++ decimalText p, c ≠ '\n' := by
      intro c hc
      rcases List.mem_append.mp hc with h | h
      · exact (hws c h).2
      · exact decimalText_no_newline p c h
    have hg := (getline_line (ws ++ decimalText p) tail hline).1
    have e1 := extractInt_decimalText ws [] p init.pile_id_ hp hsp (by simp)
    rw [List.append_nil] at e1
    exact Action.fromStream_of_line init _ _ ⟨[], true, true, false⟩ _
      p init.num_objects_ hg rfl (by rw [e1])
      (by rw [e1]; exact extractInt_of_not_good _ _ rfl) rfl

/-- Witness of `Action.fromStream_short_line`: the line `42`. -/
theorem Action.fromStream_short_line_witness :
    IsInt 42 ∧
    Action.fromStream ⟨7, 8⟩ (IStream.ofChars ['4', '2', '\n'])
      = ⟨⟨42, 8⟩, ⟨[], false, false, false⟩, []⟩ := by
  refine ⟨by decide, ?_⟩
  have h := (Action.fromStream_short_line ⟨7, 8⟩ 42 [] [] (by decide) (by simp)).2
  have d : decimalText 42 = ['4', '2'] := by
    simp [decimalText, natDecimal, digitChar]
  rw [d] at h
  exact h

/-! ## Rendering an action -/

/-- C11: for every action with pile index `P` and count `N` (in particular
`N >= 1`), written to a good stream with the default format flags, the
rendered text is exactly `From pile P remove N object` followed by `s` when
`N > 1` and by nothing otherwise; the text ends in `s` if and only if `N > 1`,
and for `N = 1` it is the singular `From pile P remove 1 object`. -/
theorem Action.operatorShl_text (os : List Char) (a : Action) :
    a.operatorShl os
      = os ++ "From pile ".toList ++ decimalText a.pile_id_ ++ " remove ".toList
          ++ decimalText a.num_objects_ ++ " object".toList
          ++ (if a.num_objects_ > 1 then "s".toList else []) ∧
    ((a.operatorShl os).getLast? = some 's' ↔ a.num_objects_ > 1) ∧
    (a.num_objects_ = 1 →
      a.operatorShl os
        = os ++ "From pile ".toList ++ decimalText a.pile_id_ ++ " remove 1 object".toList) := by
  have hone : decimalText 1 = ['1'] := by
    simp [decimalText, natDecimal, digitChar]
  have hlast : ∀ (l : List Char) (c : Char), (l ++ [c]).getLast? = some c :=
    fun l _ => List.getLast?_concat l
  by_cases h : a.num_objects_ > 1
  · have htext : a.operatorShl os
        = (os ++ "From pile ".toList ++ decimalText a.pile_id_ ++ " remove ".toList
          ++ decimalText a.num_objects_ ++ " object".toList) ++ ['s'] := by
      simp [Action.operatorShl, putString, putInt, h]
    refine ⟨?_, ?_, ?_⟩
    · rw [htext, if_pos h]
      rfl
    · rw [htext, hlast]
      simp [h]
    · intro h1
      omega
  · have htext : a.operatorShl os
        = (os ++ "From pile ".toList ++ decimalText a.pile_id_ ++ " remove ".toList
          ++ decimalText a.num_objects_ ++ " objec".toList) ++ ['t'] := by
      simp [Action.operatorShl, putString, putInt, h]
    refine ⟨?_, ?_, ?_⟩
    · rw [htext, if_neg h]
      simp
    · rw [htext, hlast]
      simp [h]
    · intro h1
      rw [htext, h1, hone]
      simp

/-! ## Agents -/

/-- C12: the default `Agent::Update` only tracks the new current state.  For every
agent, prior state, new state and reward, after the call the current state is
the new state, the set of attached games is unchanged, and the result does not
depend on the prior state or on the reward. -/
theorem Agent.update_tracks_current_state {α : Type} (agent : Agent)
    (update_state current_state : State) (reward : α) :
    (agent.Update update_state current_state reward).current_state_ = current_state ∧
    (agent.Update update_state current_state reward).games_ = agent.games_ ∧
    (∀ (other_state : State) (other_reward : α),
      agent.Update other_state current_state other_reward
        = agent.Update update_state current_state reward) :=
  ⟨rfl, rfl, fun _ _ => rfl⟩

/-- C13: an `OffPolicyMonteCarloAgent` constructed without arguments has
`importance_sampling_ = kWeighted`, discount 1.0, exploration rate 1.0, decay
factor 0.9 and floor 0.01. -/
theorem OffPolicyMonteCarloAgent.constructDefault_members :
    OffPolicyMonteCarloAgent.constructDefault.importance_sampling_
      = ImportanceSampling.kWeighted ∧
    OffPolicyMonteCarloAgent.constructDefault.gamma_ = 1 ∧
    OffPolicyMonteCarloAgent.constructDefault.epsilon_ = 1 ∧
    OffPolicyMonteCarloAgent.constructDefault.epsilon_decay_factor_ = 9 / 10 ∧
    OffPolicyMonteCarloAgent.constructDefault.min_epsilon_ = 1 / 100 :=
  ⟨rfl, rfl, rfl, rfl, rfl⟩

/-- C18: the strategy-specific selection of the dynamic-programming agents and of
the base Monte-Carlo agent is purely greedy.  For every sampler and all legal
and greedy action sets, `DPAgent::PolicyImpl` and `MonteCarloAgent::PolicyImpl`
return the sample taken from the greedy actions, and the result is the same
for every legal-action set. -/
theorem DPAgent.policyImpl_purely_greedy (SampleAction : List Action → Action)
    (legal_actions greedy_actions : List Action) :
    DPAgent.PolicyImpl SampleAction legal_actions greedy_actions
      = SampleAction greedy_actions ∧
    MonteCarloAgent.PolicyImpl SampleAction legal_actions greedy_actions
      = SampleAction greedy_actions ∧
    (∀ other_legal : List Action,
      DPAgent.PolicyImpl SampleAction other_legal greedy_actions
        = DPAgent.PolicyImpl SampleAction legal_actions greedy_actions ∧
      MonteCarloAgent.PolicyImpl SampleAction other_legal greedy_actions
        = MonteCarloAgent.PolicyImpl SampleAction legal_actions greedy_actions) :=
  ⟨rfl, rfl, fun _ => ⟨rfl, rfl⟩⟩

/-- C19: for every value table `v`, after `DoubleLearningAgent::SetValues(v)`, by
the copy overload or by the move overload, both value stores equal `v`, and
every other member of the agent (the `Agent` part, the greedy bookkeeping, the
epsilon-greedy parameters, `alpha_`, `gamma_`, `flag_`, the random source) is
as before. -/
theorem DoubleLearningAgent.setValues_both_stores {α : Type}
    (agent : DoubleLearningAgent α) (v : ValueTable α) :
    ((agent.SetValues v).values_ = v ∧ (agent.SetValues v).values_2_ = v ∧
      (agent.SetValues v).toAgent = agent.toAgent ∧
      (agent.SetValues v).greedy_value_ = agent.greedy_value_ ∧
      (agent.SetValues v).legal_actions_ = agent.legal_actions_ ∧
      (agent.SetValues v).greedy_actions_ = agent.greedy_actions_ ∧
      (agent.SetValues v).toEpsilonGreedyPolicy = agent.toEpsilonGreedyPolicy ∧
      (agent.SetValues v).alpha_ = agent.alpha_ ∧
      (agent.SetValues v).gamma_ = agent.gamma_ ∧
      (agent.SetValues v).flag_ = agent.flag_ ∧
      (agent.SetValues v).rng_ = agent.rng_) ∧
    ((agent.SetValuesMove v).values_ = v ∧ (agent.SetValuesMove v).values_2_ = v ∧
      (agent.SetValuesMove v).toAgent = agent.toAgent ∧
      (agent.SetValuesMove v).greedy_value_ = agent.greedy_value_ ∧
      (agent.SetValuesMove v).legal_actions_ = agent.legal_actions_ ∧
      (agent.SetValuesMove v).greedy_actions_ = agent.greedy_actions_ ∧
      (agent.SetValuesMove v).toEpsilonGreedyPolicy = agent.toEpsilonGreedyPolicy ∧
      (agent.SetValuesMove v).alpha_ = agent.alpha_ ∧
      (agent.SetValuesMove v).gamma_ = agent.gamma_ ∧
      (agent.SetValuesMove v).flag_ = agent.flag_ ∧
      (agent.SetValuesMove v).rng_ = agent.rng_) :=
  ⟨⟨rfl, rfl, rfl, rfl, rfl, rfl, rfl, rfl, rfl, rfl, rfl⟩,
   ⟨rfl, rfl, rfl, rfl, rfl, rfl, rfl, rfl, rfl, rfl, rfl⟩⟩

/-! ## Decay of the exploration rate -/

/-- C14 (counterexample): after `SetEpsilon(0.0)` on a policy with decay factor 0.9
and floor 0.01, the rate is 0 (which is `>= 0`), the decay factor lies in
`[0, 1]`, and `UpdateEpsilon` raises the rate from 0 to 0.01. -/
theorem EpsilonGreedyPolicy.updateEpsilon_raises_rate_below_floor :
    (0 : ℚ) ≤ ((⟨1, 9 / 10, 1 / 100⟩ : EpsilonGreedyPolicy ℚ).SetEpsilon 0).epsilon_ ∧
    (0 : ℚ) ≤ 9 / 10 ∧ (9 / 10 : ℚ) ≤ 1 ∧
    (((⟨1, 9 / 10, 1 / 100⟩ : EpsilonGreedyPolicy ℚ).SetEpsilon 0).UpdateEpsilon).epsilon_
      = 1 / 100 ∧
    ¬ ((((⟨1, 9 / 10, 1 / 100⟩ : EpsilonGreedyPolicy ℚ).SetEpsilon 0).UpdateEpsilon).epsilon_
      ≤ ((⟨1, 9 / 10, 1 / 100⟩ : EpsilonGreedyPolicy ℚ).SetEpsilon 0).epsilon_) := by
  have h : (((⟨1, 9 / 10, 1 / 100⟩ : EpsilonGreedyPolicy ℚ).SetEpsilon 0).UpdateEpsilon).epsilon_
      = 1 / 100 := by
    simp only [EpsilonGreedyPolicy.UpdateEpsilon, EpsilonGreedyPolicy.SetEpsilon, stdMax_eq_max]
    norm_num
  refine ⟨le_refl _, by norm_num, by norm_num, h, ?_⟩
  rw [h]
  simp only [EpsilonGreedyPolicy.SetEpsilon]
  norm_num

/-- C14 (amended): for every exploration rate `>= 0`, every decay factor `<= 1`
and every floor, the rate after `UpdateEpsilon` is at most the rate before it
if and only if the rate before is at least the floor; a rate below the floor
is set to exactly the floor; in every case the rate after is at most the
larger of the floor and the rate before. -/
theorem EpsilonGreedyPolicy.updateEpsilon_le_iff_floor_le {α : Type} [LinearOrderedField α]
    (p : EpsilonGreedyPolicy α) (h0 : 0 ≤ p.epsilon_) (hd : p.epsilon_decay_factor_ ≤ 1) :
    (p.UpdateEpsilon.epsilon_ ≤ p.epsilon_ ↔ p.min_epsilon_ ≤ p.epsilon_) ∧
    (p.epsilon_ < p.min_epsilon_ → p.UpdateEpsilon.epsilon_ = p.min_epsilon_) ∧
    p.UpdateEpsilon.epsilon_ ≤ max p.min_epsilon_ p.epsilon_ := by
  have hmul : p.epsilon_ * p.epsilon_decay_factor_ ≤ p.epsilon_ :=
    mul_le_of_le_one_right h0 hd
  have hnew : p.UpdateEpsilon.epsilon_
      = max p.min_epsilon_ (p.epsilon_ * p.epsilon_decay_factor_) := by
    unfold EpsilonGreedyPolicy.UpdateEpsilon
    exact stdMax_eq_max _ _
  rw [hnew]
  refine ⟨?_, ?_, ?_⟩
  · constructor
    · intro h
      exact le_trans (le_max_left _ _) h
    · intro h
      exact max_le h hmul
  · intro h
    exact max_eq_left (le_trans hmul h.le)
  · exact max_le_max (le_refl _) hmul

/-- C14 witness: rate 1, decay factor 0.9, floor 0.01. -/
theorem EpsilonGreedyPolicy.updateEpsilon_le_iff_floor_le_witness :
    (0 : ℚ) ≤ 1 ∧ (9 / 10 : ℚ) ≤ 1 ∧
    ((⟨1, 9 / 10, 1 / 100⟩ : EpsilonGreedyPolicy ℚ).UpdateEpsilon.epsilon_
        ≤ (⟨1, 9 / 10, 1 / 100⟩ : EpsilonGreedyPolicy ℚ).epsilon_
      ↔ (⟨1, 9 / 10, 1 / 100⟩ : EpsilonGreedyPolicy ℚ).min_epsilon_
        ≤ (⟨1, 9 / 10, 1 / 100⟩ : EpsilonGreedyPolicy ℚ).epsilon_) :=
  ⟨by norm_num, by norm_num,
   (EpsilonGreedyPolicy.updateEpsilon_le_iff_floor_le
      (⟨1, 9 / 10, 1 / 100⟩ : EpsilonGreedyPolicy ℚ) (by norm_num) (by norm_num)).1⟩

theorem EpsilonGreedyPolicy.iterate_updateEpsilon_params {α : Type} [LinearOrder α] [Mul α]
    (p : EpsilonGreedyPolicy α) (k : Nat) :
    (EpsilonGreedyPolicy.UpdateEpsilon^[k] p).min_epsilon_ = p.min_epsilon_ ∧
    (EpsilonGreedyPolicy.UpdateEpsilon^[k] p).epsilon_decay_factor_
      = p.epsilon_decay_factor_ := by
  induction k with
  | zero => exact ⟨rfl, rfl⟩
  | succ k ih =>
    rw [Function.iterate_succ_apply']
    exact ⟨ih.1, ih.2⟩

theorem max_floor_decay_step {α : Type} [LinearOrderedField α] (m x d : α)
    (hd0 : 0 ≤ d) (hd1 : d ≤ 1) (hm : 0 ≤ m) :
    max m (max m x * d) = max m (x * d) := by
  rw [max_mul_of_nonneg _ _ hd0, ← max_assoc, max_eq_left (mul_le_of_le_one_right hm hd1)]

/-- C15: for every initial exploration rate `e0`, decay factor `d` with
`0 <= d <= 1`, floor `m >= 0` and number `k >= 1` of update cycles, the
exploration rate after `k` successive calls of `UpdateEpsilon` equals
`max(m, e0 * d^k)` (exact arithmetic in an ordered field such as the rationals). -/
theorem EpsilonGreedyPolicy.iterate_updateEpsilon_closed_form {α : Type}
    [LinearOrderedField α] (p : EpsilonGreedyPolicy α) (k : Nat)
    (hd0 : 0 ≤ p.epsilon_decay_factor_) (hd1 : p.epsilon_decay_factor_ ≤ 1)
    (hm : 0 ≤ p.min_epsilon_) (hk : 1 ≤ k) :
    (EpsilonGreedyPolicy.UpdateEpsilon^[k] p).epsilon_
      = max p.min_epsilon_ (p.epsilon_ * p.epsilon_decay_factor_ ^ k) := by
  induction k, hk using Nat.le_induction with
  | base =>
    rw [Function.iterate_one, pow_one]
    unfold EpsilonGreedyPolicy.UpdateEpsilon
    exact stdMax_eq_max _ _
  | succ k _ ih =>
    have hpar := EpsilonGreedyPolicy.iterate_updateEpsilon_params p k
    rw [Function.iterate_succ_apply']
    have hstep : (EpsilonGreedyPolicy.UpdateEpsilon (EpsilonGreedyPolicy.UpdateEpsilon^[k] p)).epsilon_
        = max (EpsilonGreedyPolicy.UpdateEpsilon^[k] p).min_epsilon_
            ((EpsilonGreedyPolicy.UpdateEpsilon^[k] p).epsilon_
              * (EpsilonGreedyPolicy.UpdateEpsilon^[k] p).epsilon_decay_factor_) := by
      unfold EpsilonGreedyPolicy.UpdateEpsilon
      exact stdMax_eq_max _ _
    rw [hstep, hpar.1, hpar.2, ih, max_floor_decay_step _ _ _ hd0 hd1 hm, pow_succ, mul_assoc]

/-- C15 witness: rate 1, decay factor 1/2, floor 1/100, three update cycles give 1/8. -/
theorem EpsilonGreedyPolicy.iterate_updateEpsilon_closed_form_witness :
    (0 : ℚ) ≤ 1 / 2 ∧ (1 / 2 : ℚ) ≤ 1 ∧ (0 : ℚ) ≤ 1 / 100 ∧ 1 ≤ 3 ∧
    (EpsilonGreedyPolicy.UpdateEpsilon^[3] (⟨1, 1 / 2, 1 / 100⟩ : EpsilonGreedyPolicy ℚ)).epsilon_
      = 1 / 8 := by
  refine ⟨by norm_num, by norm_num, by norm_num, by norm_num, ?_⟩
  have h := EpsilonGreedyPolicy.iterate_updateEpsilon_closed_form
    (⟨1, 1 / 2, 1 / 100⟩ : EpsilonGreedyPolicy ℚ) 3 (by norm_num) (by norm_num)
    (by norm_num) (by norm_num)
  rw [h]
  norm_num

/-! ## Stream extraction into an action -/

theorem Action.moveAssign_eq (self rhs : Action) : self.moveAssign rhs = rhs := by
  cases rhs
  rfl

/-- C16: stream extraction into an action is atomic.  For every input stream,
every destination action and every initial value of the temporary, the
stream after `operator>>` is the stream the constructor left; when it is
failed the destination keeps the pile index and count it had before the call,
and when it is not failed the destination equals the action the constructor
parsed from the line. -/
theorem Action.operatorShr_atomic (init : Action) (is : IStream) (dest : Action) :
    (Action.operatorShr init is dest).is = (Action.fromStream init is).is ∧
    (Action.operatorShr init is dest).cerr = (Action.fromStream init is).cerr ∧
    ((Action.operatorShr init is dest).is.fail = true →
      (Action.operatorShr init is dest).action = dest) ∧
    ((Action.operatorShr init is dest).is.fail = false →
      (Action.operatorShr init is dest).action = (Action.fromStream init is).action) := by
  unfold Action.operatorShr
  by_cases h : (Action.fromStream init is).is.fail = true
  · simp [h]
  · simp [h, Action.moveAssign_eq]

/-- Extraction at concrete inputs: the line `3 2` replaces the destination `(4, 5)`
by `(3, 2)`; the lines `1 2 3` and `ab`, an exhausted stream and a stream that
is already failed leave the destination `(4, 5)` as it was. -/
theorem Action.operatorShr_examples :
    Action.operatorShr ⟨-1, -1⟩ (IStream.ofChars ['3', ' ', '2', '\n']) ⟨4, 5⟩
      = ⟨⟨3, 2⟩, ⟨[], false, false, false⟩, []⟩ ∧
    Action.operatorShr ⟨-1, -1⟩ (IStream.ofChars ['1', ' ', '2', ' ', '3', '\n']) ⟨4, 5⟩
      = ⟨⟨4, 5⟩, ⟨[], false, true, false⟩, ["Error: Invalid input."]⟩ ∧
    Action.operatorShr ⟨-1, -1⟩ (IStream.ofChars ['a', 'b', '\n']) ⟨4, 5⟩
      = ⟨⟨4, 5⟩, ⟨[], false, true, false⟩, ["Error: Invalid input."]⟩ ∧
    Action.operatorShr ⟨-1, -1⟩ (IStream.ofChars []) ⟨4, 5⟩
      = ⟨⟨4, 5⟩, ⟨[], true, true, false⟩, ["Error: Invalid input."]⟩ ∧
    Action.operatorShr ⟨-1, -1⟩ ⟨['3', ' ', '2', '\n'], false, true, false⟩ ⟨4, 5⟩
      = ⟨⟨4, 5⟩, ⟨['3', ' ', '2', '\n'], false, true, false⟩, ["Error: Invalid input."]⟩ := by
  refine ⟨?_, ?_, ?_, ?_, ?_⟩ <;> decide

/-! ## Illegal actions are rejected before the state is indexed -/

/-- C17: for every state (the state with no piles included) and every action whose
pile index is negative or whose count is less than 1, `Action::Valid` returns
false (it does not raise), and it does so whatever indexing the state would
do: the `&&` chain stops before `state[pile_id_]`.  The parse sentinel
`(-1, -1)` is such an action. -/
theorem Action.valid_false_without_indexing (a : Action) (s : State)
    (h : a.pile_id_ < 0 ∨ a.num_objects_ < 1) :
    a.Valid s = Except.ok false ∧
    (∀ index : State → Int → Except Error Nat, a.ValidWith index s = Except.ok false) ∧
    a.Valid s = a.ValidWith State.subscript s ∧
    Action.Valid ⟨-1, -1⟩ s = Except.ok false := by
  have key : ∀ index : State → Int → Except Error Nat,
      a.ValidWith index s = Except.ok false := by
    intro index
    unfold Action.ValidWith
    by_cases h0 : a.pile_id_ ≥ 0
    · have hn : ¬ a.num_objects_ ≥ 1 := by omega
      rw [if_pos h0, if_neg hn]
      by_cases h1 : toSizeT a.pile_id_ ≤ subSizeT s.Size 1
      · rw [if_pos h1]
        rfl
      · rw [if_neg h1]
        rfl
    · rw [if_neg h0]
      rfl
  have hsame : a.Valid s = a.ValidWith State.subscript s := rfl
  refine ⟨hsame ▸ key _, key, hsame, ?_⟩
  unfold Action.Valid
  rw [if_neg (by decide)]
  rfl

/-- C17 witness: the parse sentinel `(-1, -1)` on the state with no piles. -/
theorem Action.valid_false_without_indexing_witness :
    ((-1 : Int) < 0 ∨ (-1 : Int) < 1) ∧
    Action.Valid ⟨-1, -1⟩ ⟨[]⟩ = Except.ok false ∧
    Action.ValidWith (fun _ _ => Except.error (Error.out_of_range kRangeMsg)) ⟨-1, -1⟩ ⟨[]⟩
      = Except.ok false :=
  ⟨Or.inl (by decide),
   (Action.valid_false_without_indexing ⟨-1, -1⟩ ⟨[]⟩ (Or.inl (by decide))).1,
   (Action.valid_false_without_indexing ⟨-1, -1⟩ ⟨[]⟩ (Or.inl (by decide))).2.1 _⟩

end NimRL
